import Mathlib

/-!
Shallow embedding of `backend/app/stream.py` (class `ConverseApiStreamHandler`)
from the bedrock-claude-chat repository.

The Python `run` method builds the outbound argument dictionary for the
Converse API call (conditionally inserting `guardrailConfig`), invokes the
external streaming client, and then iterates over the returned event stream:

  * on a `contentBlockDelta` event it appends the delta text to the
    `completions` accumulator, calls `on_stream(text)` and yields its result;
  * on a `messageStop` event it records the stop reason;
  * on a `metadata` event it computes the price with the external
    `calculate_price(self.model, input_tokens, output_tokens)`, builds an
    `OnStopInput` whose `full_token` is the right-trimmed concatenation of the
    accumulator, calls `on_stop` with it and yields its result;
  * any other event is ignored.

The embedding makes every observable of one `run` invocation explicit: the
outbound call arguments (an association list, mirroring the Python dict),
the run-level log records, and a trace of actions (debug/info log records,
callback invocations and generator yields) in program order, together with
the final loop state.  The price type `P`, the yield result type `R` and the
exception type `E` are kept abstract, as the corresponding Python values
(`float` from the black-box `calculate_price`, the callbacks' return values,
and the exception raised by the client) are opaque to the adapter.
-/

namespace ConverseStream

variable {E R P : Type}

/-- Python `str.rstrip()`: removes trailing whitespace characters.  Embeds the
call `concatenated.rstrip()` in `ConverseApiStreamHandler.run`. -/
def rstrip (s : String) : String :=
  ⟨(s.data.reverse.dropWhile Char.isWhitespace).reverse⟩

/-- The `OnStopInput` pydantic model of `stream.py`.  The price type is kept
abstract: the Python field is a `float` produced by the external
`calculate_price` function, which the adapter never inspects. -/
structure OnStopInput (P : Type) where
  full_token : String
  stop_reason : String
  input_token_count : Nat
  output_token_count : Nat
  price : P
  deriving DecidableEq

/-- One event of the Converse API response stream, as discriminated by the
`if "contentBlockDelta" in event / elif "messageStop" / elif "metadata"`
chain in `run`.  `other` stands for any event matching none of the three
keys; the Python loop silently skips such events (there is no `else`). -/
inductive Event where
  | contentBlockDelta (text : String)
  | messageStop (stopReason : String)
  | metadata (inputTokens outputTokens : Nat)
  | other
  deriving DecidableEq

/-- The local state of the event loop in `run`: the `completions` list of
accumulated delta texts and the `stop_reason` string (initialised to `""`). -/
structure LoopState where
  completions : List String
  stop_reason : String
  deriving DecidableEq

/-- One observable action of the event loop, in program order: a
`logger.debug` record, a `logger.info` record for an event, an invocation of
the `on_stream` callback with the raw delta text, an invocation of the
`on_stop` callback with its `OnStopInput` argument, or a `yield` of a value
to the generator's consumer. -/
inductive Action (R P : Type) where
  | logDebug (e : Event)
  | logInfoEvent (e : Event)
  | streamCall (text : String)
  | stopCall (s : OnStopInput P)
  | yielded (r : R)
  deriving DecidableEq

/-- The event loop of `ConverseApiStreamHandler.run` (lines 76-108 of
`stream.py`): processes the events in order from a loop state, returning the
trace of actions performed and the final loop state.

  * `contentBlockDelta text`: `logger.debug`, `completions.append(text)`,
    `response = self.on_stream(text)`, `yield response`;
  * `messageStop reason`: `logger.debug`, `stop_reason = reason`;
  * `metadata inTok outTok`: `logger.debug`, compute
    `price = calculate_price(self.model, inTok, outTok)`, build the
    `OnStopInput` with `full_token = "".join(completions).rstrip()`,
    `response = self.on_stop(...)`, `logger.info`, `yield response` —
    note that the loop then continues with the remaining events, with the
    accumulator and stop reason unchanged;
  * any other event: skipped. -/
def processEvents (model : String) (calculate_price : String → Nat → Nat → P)
    (on_stream : String → R) (on_stop : OnStopInput P → R) :
    List Event → LoopState → List (Action R P) × LoopState
  | [], st => ([], st)
  | Event.contentBlockDelta text :: rest, st =>
      let out := processEvents model calculate_price on_stream on_stop rest
        ⟨st.completions ++ [text], st.stop_reason⟩
      (Action.logDebug (Event.contentBlockDelta text) :: Action.streamCall text ::
        Action.yielded (on_stream text) :: out.1, out.2)
  | Event.messageStop reason :: rest, st =>
      let out := processEvents model calculate_price on_stream on_stop rest
        ⟨st.completions, reason⟩
      (Action.logDebug (Event.messageStop reason) :: out.1, out.2)
  | Event.metadata inTok outTok :: rest, st =>
      let summary : OnStopInput P :=
        ⟨rstrip (String.join st.completions), st.stop_reason, inTok, outTok,
          calculate_price model inTok outTok⟩
      let out := processEvents model calculate_price on_stream on_stop rest st
      (Action.logDebug (Event.metadata inTok outTok) :: Action.stopCall summary ::
        Action.logInfoEvent (Event.metadata inTok outTok) ::
        Action.yielded (on_stop summary) :: out.1, out.2)
  | Event.other :: rest, st =>
      processEvents model calculate_price on_stream on_stop rest st

/-- The `ConverseApiRequest` dictionary fields read by `run`.  All payloads
except the optional `guardrailConfig` are opaque to the adapter and are
modelled as strings. -/
structure ConverseApiRequest where
  model_id : String
  messages : String
  inference_config : String
  system : String
  additional_model_request_fields : String
  guardrailConfig : Option String
  deriving DecidableEq

/-- The `base_args` dictionary built by `run` and passed to
`client.converse_stream(**base_args)`: the five unconditional keys, plus
`guardrailConfig` exactly when the request carries one (the Python code
inserts the key only under `if "guardrailConfig" in args`). -/
def base_args (args : ConverseApiRequest) : List (String × String) :=
  let base := [("modelId", args.model_id), ("messages", args.messages),
    ("inferenceConfig", args.inference_config), ("system", args.system),
    ("additionalModelRequestFields", args.additional_model_request_fields)]
  match args.guardrailConfig with
  | some gc => base ++ [("guardrailConfig", gc)]
  | none => base

/-- A run-level log record of `run`: the `logger.info(f"args for
converse_stream: {args}")` record emitted before the call, or the
`logger.error(f"Error: {e}")` record emitted in the `except` branch. -/
inductive RunLog (E : Type) where
  | infoArgs (args : ConverseApiRequest)
  | errorLog (e : E)
  deriving DecidableEq

/-- All observables of one invocation of `ConverseApiStreamHandler.run`:
the argument dictionary passed to the outbound `converse_stream` call, the
run-level log records, and either the exception re-raised from call
initiation or the trace and final state of the event loop. -/
structure RunResult (E R P : Type) where
  outbound : List (String × String)
  logs : List (RunLog E)
  result : Except E (List (Action R P) × LoopState)

/-- `ConverseApiStreamHandler.run`: builds `base_args`, logs the request,
invokes the external `converse_stream` client on it; if the call raises, the
error is logged and the same exception re-raised (no trace is produced);
otherwise the event loop runs from the initial state
`completions = []`, `stop_reason = ""`. -/
def run (converse_stream : List (String × String) → Except E (List Event))
    (model : String) (calculate_price : String → Nat → Nat → P)
    (on_stream : String → R) (on_stop : OnStopInput P → R)
    (args : ConverseApiRequest) : RunResult E R P :=
  match converse_stream (base_args args) with
  | Except.error e =>
      ⟨base_args args, [RunLog.infoArgs args, RunLog.errorLog e], Except.error e⟩
  | Except.ok events =>
      ⟨base_args args, [RunLog.infoArgs args],
        Except.ok (processEvents model calculate_price on_stream on_stop events
          ⟨[], ""⟩)⟩

/-- The event-loop trace of a run; empty when call initiation raised. -/
def RunResult.trace (r : RunResult E R P) : List (Action R P) :=
  match r.result with
  | Except.ok out => out.1
  | Except.error _ => []

/-- The final loop state of a run; the initial state when call initiation
raised (the loop never executed). -/
def RunResult.finalState (r : RunResult E R P) : LoopState :=
  match r.result with
  | Except.ok out => out.2
  | Except.error _ => ⟨[], ""⟩

/-- The arguments of the `on_stream` invocations of a trace, in order. -/
def streamCalls : List (Action R P) → List String
  | [] => []
  | Action.streamCall t :: tr => t :: streamCalls tr
  | _ :: tr => streamCalls tr

/-- The arguments of the `on_stop` invocations of a trace, in order. -/
def stopCalls : List (Action R P) → List (OnStopInput P)
  | [] => []
  | Action.stopCall s :: tr => s :: stopCalls tr
  | _ :: tr => stopCalls tr

/-- The values yielded by the generator, in order. -/
def yields : List (Action R P) → List R
  | [] => []
  | Action.yielded r :: tr => r :: yields tr
  | _ :: tr => yields tr

/-- The texts of the `contentBlockDelta` events of a stream, in order. -/
def deltaTexts : List Event → List String
  | [] => []
  | Event.contentBlockDelta t :: evs => t :: deltaTexts evs
  | _ :: evs => deltaTexts evs

/-- The number of `metadata` events of a stream. -/
def countMetadata : List Event → Nat
  | [] => 0
  | Event.metadata _ _ :: evs => countMetadata evs + 1
  | _ :: evs => countMetadata evs

/-- The number of `messageStop` events of a stream. -/
def countMessageStop : List Event → Nat
  | [] => 0
  | Event.messageStop _ :: evs => countMessageStop evs + 1
  | _ :: evs => countMessageStop evs

/-- The `(inputTokens, outputTokens)` pairs of the `metadata` events of a
stream, in order. -/
def metadataTokens : List Event → List (Nat × Nat)
  | [] => []
  | Event.metadata i o :: evs => (i, o) :: metadataTokens evs
  | _ :: evs => metadataTokens evs

/-- Every `on_stream` invocation in the trace is immediately followed by a
yield of that invocation's return value. -/
def streamYieldPaired (on_stream : String → R) : List (Action R P) → Prop
  | [] => True
  | Action.streamCall t :: rest =>
      rest.head? = some (Action.yielded (on_stream t)) ∧
        streamYieldPaired on_stream rest
  | _ :: rest => streamYieldPaired on_stream rest

/-- A concrete request used by witnesses and counterexamples. -/
def sampleArgs : ConverseApiRequest :=
  ⟨"anthropic.claude-v2", "msgs", "cfg", "sys", "fields", none⟩

/-- Processing a concatenation of event lists processes the first list, then
the second from the resulting state; the traces concatenate. -/
theorem processEvents_append (model : String) (cp : String → Nat → Nat → P)
    (f : String → R) (g : OnStopInput P → R) (xs ys : List Event)
    (st : LoopState) :
    processEvents model cp f g (xs ++ ys) st =
      ((processEvents model cp f g xs st).1 ++
        (processEvents model cp f g ys (processEvents model cp f g xs st).2).1,
        (processEvents model cp f g ys (processEvents model cp f g xs st).2).2) := by
  induction xs generalizing st with
  | nil => simp [processEvents]
  | cons e rest ih => cases e <;> simp [processEvents, ih]

/-- `streamCalls` distributes over trace concatenation. -/
theorem streamCalls_append (xs ys : List (Action R P)) :
    streamCalls (xs ++ ys) = streamCalls xs ++ streamCalls ys := by
  induction xs with
  | nil => rfl
  | cons a tr ih => cases a <;> simp [streamCalls, ih]

/-- `stopCalls` distributes over trace concatenation. -/
theorem stopCalls_append (xs ys : List (Action R P)) :
    stopCalls (xs ++ ys) = stopCalls xs ++ stopCalls ys := by
  induction xs with
  | nil => rfl
  | cons a tr ih => cases a <;> simp [stopCalls, ih]

/-- `yields` distributes over trace concatenation. -/
theorem yields_append (xs ys : List (Action R P)) :
    yields (xs ++ ys) = yields xs ++ yields ys := by
  induction xs with
  | nil => rfl
  | cons a tr ih => cases a <;> simp [yields, ih]

/-- The `on_stream` callback receives exactly the `contentBlockDelta` texts,
in arrival order. -/
theorem streamCalls_processEvents (model : String)
    (cp : String → Nat → Nat → P) (f : String → R) (g : OnStopInput P → R)
    (evs : List Event) (st : LoopState) :
    streamCalls (processEvents model cp f g evs st).1 = deltaTexts evs := by
  induction evs generalizing st with
  | nil => rfl
  | cons e rest ih =>
      cases e <;> simp only [processEvents, streamCalls, deltaTexts, ih]

/-- The final accumulator is the initial one extended by the delta texts in
arrival order. -/
theorem completions_processEvents (model : String)
    (cp : String → Nat → Nat → P) (f : String → R) (g : OnStopInput P → R)
    (evs : List Event) (st : LoopState) :
    (processEvents model cp f g evs st).2.completions =
      st.completions ++ deltaTexts evs := by
  induction evs generalizing st with
  | nil => simp [processEvents, deltaTexts]
  | cons e rest ih =>
      cases e <;> simp [processEvents, deltaTexts, ih]

/-- Streams without `messageStop` events leave the recorded stop reason
unchanged. -/
theorem stop_reason_processEvents (model : String)
    (cp : String → Nat → Nat → P) (f : String → R) (g : OnStopInput P → R)
    (evs : List Event) (st : LoopState) (h : countMessageStop evs = 0) :
    (processEvents model cp f g evs st).2.stop_reason = st.stop_reason := by
  induction evs generalizing st with
  | nil => rfl
  | cons e rest ih =>
      cases e with
      | contentBlockDelta t =>
          simp only [countMessageStop] at h
          simp only [processEvents, ih _ h]
      | messageStop reason =>
          simp only [countMessageStop] at h
          exact absurd h (Nat.succ_ne_zero _)
      | metadata i o =>
          simp only [countMessageStop] at h
          simp only [processEvents, ih _ h]
      | other =>
          simp only [countMessageStop] at h
          simp only [processEvents, ih _ h]

/-- The `on_stop` callback fires exactly once per `metadata` event. -/
theorem stopCalls_length_processEvents (model : String)
    (cp : String → Nat → Nat → P) (f : String → R) (g : OnStopInput P → R)
    (evs : List Event) (st : LoopState) :
    (stopCalls (processEvents model cp f g evs st).1).length =
      countMetadata evs := by
  induction evs generalizing st with
  | nil => rfl
  | cons e rest ih =>
      cases e <;>
        simp only [processEvents, stopCalls, countMetadata, List.length_cons,
          ih]

/-- Streams without `metadata` events produce no `on_stop` invocation. -/
theorem stopCalls_eq_nil (model : String) (cp : String → Nat → Nat → P)
    (f : String → R) (g : OnStopInput P → R) (evs : List Event)
    (st : LoopState) (h : countMetadata evs = 0) :
    stopCalls (processEvents model cp f g evs st).1 = [] := by
  have hl := stopCalls_length_processEvents model cp f g evs st
  rw [h] at hl
  exact List.length_eq_zero.mp hl

/-- Each `on_stop` argument carries the token counts of its `metadata`
event, in arrival order. -/
theorem stopCalls_tokens_processEvents (model : String)
    (cp : String → Nat → Nat → P) (f : String → R) (g : OnStopInput P → R)
    (evs : List Event) (st : LoopState) :
    (stopCalls (processEvents model cp f g evs st).1).map
        (fun s => (s.input_token_count, s.output_token_count)) =
      metadataTokens evs := by
  induction evs generalizing st with
  | nil => rfl
  | cons e rest ih =>
      cases e <;>
        simp only [processEvents, stopCalls, metadataTokens, List.map_cons, ih]

/-- Each `on_stop` argument's price is the external price function applied
to the handler's model and that argument's own token counts. -/
theorem stopCalls_price_processEvents (model : String)
    (cp : String → Nat → Nat → P) (f : String → R) (g : OnStopInput P → R)
    (evs : List Event) (st : LoopState) :
    (stopCalls (processEvents model cp f g evs st).1).map OnStopInput.price =
      (metadataTokens evs).map (fun p => cp model p.1 p.2) := by
  induction evs generalizing st with
  | nil => rfl
  | cons e rest ih =>
      cases e <;>
        simp only [processEvents, stopCalls, metadataTokens, List.map_cons, ih]

/-- In a stream without `messageStop` events, every `on_stop` argument's
stop reason is the state's initial stop reason. -/
theorem stopCalls_reason_processEvents (model : String)
    (cp : String → Nat → Nat → P) (f : String → R) (g : OnStopInput P → R)
    (evs : List Event) (st : LoopState) (h : countMessageStop evs = 0) :
    (stopCalls (processEvents model cp f g evs st).1).map
        OnStopInput.stop_reason =
      List.replicate (countMetadata evs) st.stop_reason := by
  induction evs generalizing st with
  | nil => rfl
  | cons e rest ih =>
      cases e with
      | contentBlockDelta t =>
          simp only [countMessageStop] at h
          simp only [processEvents, stopCalls, countMetadata, ih _ h]
      | messageStop reason =>
          simp only [countMessageStop] at h
          exact absurd h (Nat.succ_ne_zero _)
      | metadata i o =>
          simp only [countMessageStop] at h
          simp only [processEvents, stopCalls, countMetadata, List.map_cons,
            ih _ h, List.replicate_succ]
      | other =>
          simp only [countMessageStop] at h
          simp only [processEvents, stopCalls, countMetadata, ih _ h]

/-- Every `on_stream` invocation in a run trace is immediately followed by
the yield of its return value. -/
theorem streamYieldPaired_processEvents (model : String)
    (cp : String → Nat → Nat → P) (f : String → R) (g : OnStopInput P → R)
    (evs : List Event) (st : LoopState) :
    streamYieldPaired f (processEvents model cp f g evs st).1 := by
  induction evs generalizing st with
  | nil => exact trivial
  | cons e rest ih =>
      cases e with
      | contentBlockDelta t =>
          simp only [processEvents, streamYieldPaired, List.head?_cons]
          exact ⟨trivial, ih _⟩
      | messageStop reason => simp only [processEvents, streamYieldPaired]; exact ih _
      | metadata i o => simp only [processEvents, streamYieldPaired]; exact ih _
      | other => simp only [processEvents]; exact ih _

/-- A list of `contentBlockDelta` events contains no `metadata` event. -/
theorem countMetadata_map_delta (ts : List String) :
    countMetadata (ts.map Event.contentBlockDelta) = 0 := by
  induction ts with
  | nil => rfl
  | cons t ts ih => simp only [List.map_cons, countMetadata, ih]

/-- The delta texts of a list of `contentBlockDelta` events are the texts
themselves. -/
theorem deltaTexts_map_delta (ts : List String) :
    deltaTexts (ts.map Event.contentBlockDelta) = ts := by
  induction ts with
  | nil => rfl
  | cons t ts ih => simp only [List.map_cons, deltaTexts, ih]

/-- When the backend call returns a stream, the run trace is the event-loop
trace from the initial state. -/
theorem trace_run_ok (events : List Event) (model : String)
    (cp : String → Nat → Nat → P) (f : String → R) (g : OnStopInput P → R)
    (args : ConverseApiRequest) :
    (run (E := E) (fun _ => Except.ok events) model cp f g args).trace =
      (processEvents model cp f g events ⟨[], ""⟩).1 := rfl

/-- When the backend call returns a stream, the final state of the run is
the event-loop's final state from the initial state. -/
theorem finalState_run_ok (events : List Event) (model : String)
    (cp : String → Nat → Nat → P) (f : String → R) (g : OnStopInput P → R)
    (args : ConverseApiRequest) :
    (run (E := E) (fun _ => Except.ok events) model cp f g args).finalState =
      (processEvents model cp f g events ⟨[], ""⟩).2 := rfl

/-- Looking up a concatenation at the length of its first part finds the
head of the second part. -/
theorem getElem_opt_at_length {α : Type} (A : List α) (a : α) (C : List α) :
    (A ++ a :: C)[A.length]? = some a := by
  induction A with
  | nil => simp
  | cons x A ih => simpa using ih

/-- Claim C1: for every run over a stream of `contentBlockDelta` events with
texts `ts` followed by one `metadata` event, the `on_stop` callback is
invoked exactly once and the `OnStopInput` passed to it has `full_token`
equal to the right-trim of the concatenation of `ts` in arrival order. -/
theorem claim_C1_full_token (model : String) (cp : String → Nat → Nat → P)
    (f : String → R) (g : OnStopInput P → R) (args : ConverseApiRequest)
    (ts : List String) (inTok outTok : Nat) :
    (stopCalls (run (E := Unit)
        (fun _ => Except.ok (ts.map Event.contentBlockDelta ++
          [Event.metadata inTok outTok])) model cp f g args).trace).map
        OnStopInput.full_token =
      [rstrip (String.join ts)] := by
  rw [trace_run_ok, processEvents_append, stopCalls_append,
    stopCalls_eq_nil model cp f g _ _ (countMetadata_map_delta ts)]
  have hc : (processEvents model cp f g (ts.map Event.contentBlockDelta)
      ⟨[], ""⟩).2.completions = ts := by
    rw [completions_processEvents, deltaTexts_map_delta]
    rfl
  simp [processEvents, stopCalls, hc]

/-- Claim C2: on every event stream, the `on_stream` callback is invoked
exactly once per `contentBlockDelta` event, in arrival order, with the raw
(non-trimmed) delta text; the fragments are appended to the accumulator in
that order; and each `on_stream` invocation is immediately followed by the
yield of that invocation's return value to the generator's consumer. -/
theorem claim_C2_on_stream (model : String) (cp : String → Nat → Nat → P)
    (f : String → R) (g : OnStopInput P → R) (args : ConverseApiRequest)
    (events : List Event) :
    streamCalls (run (E := Unit) (fun _ => Except.ok events) model cp f g
        args).trace = deltaTexts events ∧
    (run (E := Unit) (fun _ => Except.ok events) model cp f g
        args).finalState.completions = deltaTexts events ∧
    streamYieldPaired f (run (E := Unit) (fun _ => Except.ok events) model cp
        f g args).trace := by
  refine ⟨?_, ?_, ?_⟩
  · rw [trace_run_ok]
    exact streamCalls_processEvents model cp f g events _
  · rw [finalState_run_ok, completions_processEvents]
    rfl
  · rw [trace_run_ok]
    exact streamYieldPaired_processEvents model cp f g events _

/-- Claim C3 counterexample: on a stream carrying two `metadata` events the
`on_stop` callback fires twice in a single run, so "at most once per run
call", quantified over every event sequence, fails: the loop fires `on_stop`
once per `metadata` event and never de-duplicates. -/
theorem claim_C3_counterexample :
    ¬ (stopCalls (run (E := Unit)
        (fun _ => Except.ok [Event.metadata 1 2, Event.metadata 3 4])
        "anthropic.claude-v2" (fun _ i o => i + o) (fun _ => 0)
        (fun _ => 1) sampleArgs).trace).length ≤ 1 := by
  decide

/-- Claim C3 (amended): a single run invokes the `on_stop` callback exactly
once per `metadata` event of the stream — hence at most once whenever the
stream carries at most one `metadata` event, and never when none occurs. -/
theorem claim_C3_amended_once_per_metadata (model : String)
    (cp : String → Nat → Nat → P) (f : String → R) (g : OnStopInput P → R)
    (args : ConverseApiRequest) (events : List Event) :
    (stopCalls (run (E := Unit) (fun _ => Except.ok events) model cp f g
        args).trace).length = countMetadata events := by
  rw [trace_run_ok]
  exact stopCalls_length_processEvents model cp f g events _

/-- Claim C4 counterexample: on the stream `[metadata 0 0, delta "x"]` the
run invokes `on_stop` (whose yield, `2`, is the first element produced) and
then still processes the `contentBlockDelta`: `on_stream` is invoked with
`"x"` and a further element (`1`) is yielded after the `on_stop` yield.  So
the adapter does not treat `metadata` as a terminal event. -/
theorem claim_C4_counterexample :
    yields (run (E := Unit)
        (fun _ => Except.ok [Event.metadata 0 0, Event.contentBlockDelta "x"])
        "anthropic.claude-v2" (fun _ _ _ => 0) (fun _ => 1) (fun _ => 2)
        sampleArgs).trace = [2, 1] ∧
    streamCalls (run (E := Unit)
        (fun _ => Except.ok [Event.metadata 0 0, Event.contentBlockDelta "x"])
        "anthropic.claude-v2" (fun _ _ _ => 0) (fun _ => 1) (fun _ => 2)
        sampleArgs).trace = ["x"] ∧
    (stopCalls (run (E := Unit)
        (fun _ => Except.ok [Event.metadata 0 0, Event.contentBlockDelta "x"])
        "anthropic.claude-v2" (fun _ _ _ => 0) (fun _ => 1) (fun _ => 2)
        sampleArgs).trace).length = 1 := by
  decide

/-- Claim C4 (amended): when the only `metadata` event of the stream is its
final event, the element yielded after invoking `on_stop` is the last
element the run produces — the trace ends with that yield, so no
`contentBlockDelta` processing and no further callback invocation happens
after it (and no `on_stop` invocation happened before it). -/
theorem claim_C4_amended_metadata_last (model : String)
    (cp : String → Nat → Nat → P) (f : String → R) (g : OnStopInput P → R)
    (args : ConverseApiRequest) (lead : List Event) (inTok outTok : Nat)
    (h : countMetadata lead = 0) :
    ∃ pre s,
      (run (E := Unit)
          (fun _ => Except.ok (lead ++ [Event.metadata inTok outTok])) model
          cp f g args).trace =
        pre ++ [Action.logDebug (Event.metadata inTok outTok),
          Action.stopCall s,
          Action.logInfoEvent (Event.metadata inTok outTok),
          Action.yielded (g s)] ∧
      stopCalls pre = [] := by
  rw [trace_run_ok, processEvents_append]
  exact ⟨(processEvents model cp f g lead ⟨[], ""⟩).1, _, rfl,
    stopCalls_eq_nil model cp f g lead _ h⟩

/-- Witness for the amended claim C4 at the concrete stream
`[delta "hi", metadata 5 2]`. -/
theorem claim_C4_amended_witness :
    countMetadata [Event.contentBlockDelta "hi"] = 0 ∧
    ∃ pre s,
      (run (E := Unit)
          (fun _ => Except.ok ([Event.contentBlockDelta "hi"] ++
            [Event.metadata 5 2])) "anthropic.claude-v2"
          (fun _ i o => i + o) (fun _ => 0) (fun _ => 1) sampleArgs).trace =
        pre ++ [Action.logDebug (Event.metadata 5 2), Action.stopCall s,
          Action.logInfoEvent (Event.metadata 5 2), Action.yielded (1 : Nat)] ∧
      stopCalls pre = [] := by
  refine ⟨rfl, ?_⟩
  exact claim_C4_amended_metadata_last "anthropic.claude-v2"
    (fun _ i o => i + o) (fun _ => 0) (fun _ => 1) sampleArgs
    [Event.contentBlockDelta "hi"] 5 2 rfl

/-- Claim C5: a run over a stream that carries `contentBlockDelta` events
but no `metadata` event invokes `on_stream` once per delta in order, never
invokes `on_stop` (no summary is produced), and returns normally — the
result is an `ok` value, not an exception. -/
theorem claim_C5_no_metadata (model : String) (cp : String → Nat → Nat → P)
    (f : String → R) (g : OnStopInput P → R) (args : ConverseApiRequest)
    (events : List Event) (hm : countMetadata events = 0)
    (_hd : deltaTexts events ≠ []) :
    (∃ out, (run (E := Unit) (fun _ => Except.ok events) model cp f g
        args).result = Except.ok out) ∧
    streamCalls (run (E := Unit) (fun _ => Except.ok events) model cp f g
        args).trace = deltaTexts events ∧
    stopCalls (run (E := Unit) (fun _ => Except.ok events) model cp f g
        args).trace = [] := by
  refine ⟨⟨_, rfl⟩, ?_, ?_⟩
  · rw [trace_run_ok]
    exact streamCalls_processEvents model cp f g events _
  · rw [trace_run_ok]
    exact stopCalls_eq_nil model cp f g events _ hm

/-- Witness for claim C5 at the concrete stream `[delta "hi", delta " there"]`. -/
theorem claim_C5_witness :
    countMetadata [Event.contentBlockDelta "hi",
      Event.contentBlockDelta " there"] = 0 ∧
    deltaTexts [Event.contentBlockDelta "hi",
      Event.contentBlockDelta " there"] ≠ [] ∧
    ((∃ out, (run (E := Unit)
        (fun _ => Except.ok [Event.contentBlockDelta "hi",
          Event.contentBlockDelta " there"]) "anthropic.claude-v2"
        (fun _ i o => i + o) (fun _ => (0 : Nat)) (fun _ => 1)
        sampleArgs).result = Except.ok out) ∧
      streamCalls (run (E := Unit)
        (fun _ => Except.ok [Event.contentBlockDelta "hi",
          Event.contentBlockDelta " there"]) "anthropic.claude-v2"
        (fun _ i o => i + o) (fun _ => (0 : Nat)) (fun _ => 1)
        sampleArgs).trace = deltaTexts [Event.contentBlockDelta "hi",
          Event.contentBlockDelta " there"] ∧
      stopCalls (run (E := Unit)
        (fun _ => Except.ok [Event.contentBlockDelta "hi",
          Event.contentBlockDelta " there"]) "anthropic.claude-v2"
        (fun _ i o => i + o) (fun _ => (0 : Nat)) (fun _ => 1)
        sampleArgs).trace = []) := by
  refine ⟨rfl, by decide, ?_⟩
  exact claim_C5_no_metadata "anthropic.claude-v2" (fun _ i o => i + o)
    (fun _ => (0 : Nat)) (fun _ => 1) sampleArgs
    [Event.contentBlockDelta "hi", Event.contentBlockDelta " there"] rfl
    (by decide)

/-- Claim C6: every `OnStopInput` passed to `on_stop` carries the token
counts of its `metadata` event, and its `price` field is exactly the value
of the external price function applied to the handler's model identifier and
those token counts — no adapter-side rounding or adjustment. -/
theorem claim_C6_price (model : String) (cp : String → Nat → Nat → P)
    (f : String → R) (g : OnStopInput P → R) (args : ConverseApiRequest)
    (events : List Event) :
    (stopCalls (run (E := Unit) (fun _ => Except.ok events) model cp f g
        args).trace).map
        (fun s => (s.input_token_count, s.output_token_count)) =
      metadataTokens events ∧
    (stopCalls (run (E := Unit) (fun _ => Except.ok events) model cp f g
        args).trace).map OnStopInput.price =
      (metadataTokens events).map (fun p => cp model p.1 p.2) := by
  constructor
  · rw [trace_run_ok]
    exact stopCalls_tokens_processEvents model cp f g events _
  · rw [trace_run_ok]
    exact stopCalls_price_processEvents model cp f g events _

/-- Claim C7: the outbound `converse_stream` call receives exactly the
`base_args` dictionary, and that dictionary contains a `guardrailConfig`
entry if and only if the request supplied one (with that exact value); when
the request omits it, no entry under that key is present at all. -/
theorem claim_C7_guardrail
    (conv : List (String × String) → Except E (List Event)) (model : String)
    (cp : String → Nat → Nat → P) (f : String → R) (g : OnStopInput P → R)
    (args : ConverseApiRequest) (v : String) :
    (run conv model cp f g args).outbound = base_args args ∧
    (("guardrailConfig", v) ∈ (run conv model cp f g args).outbound ↔
      args.guardrailConfig = some v) := by
  have houtb : (run conv model cp f g args).outbound = base_args args := by
    unfold run
    cases conv (base_args args) <;> rfl
  refine ⟨houtb, ?_⟩
  rw [houtb]
  unfold base_args
  cases hgc : args.guardrailConfig with
  | none => simp
  | some gc => simp [eq_comm]

/-- Claim C8: when initiating the backend call raises, `run` logs the
failure after the request log and re-raises the same exception; the produced
sequence yields no element and neither callback is invoked. -/
theorem claim_C8_raise
    (conv : List (String × String) → Except E (List Event)) (model : String)
    (cp : String → Nat → Nat → P) (f : String → R) (g : OnStopInput P → R)
    (args : ConverseApiRequest) (e : E)
    (h : conv (base_args args) = Except.error e) :
    (run conv model cp f g args).result = Except.error e ∧
    (run conv model cp f g args).logs =
      [RunLog.infoArgs args, RunLog.errorLog e] ∧
    yields (run conv model cp f g args).trace = [] ∧
    streamCalls (run conv model cp f g args).trace = [] ∧
    stopCalls (run conv model cp f g args).trace = [] := by
  unfold run
  rw [h]
  exact ⟨rfl, rfl, rfl, rfl, rfl⟩

/-- Witness for claim C8 with a client that raises `"boom"`. -/
theorem claim_C8_witness :
    (fun _ : List (String × String) =>
      (Except.error "boom" : Except String (List Event)))
        (base_args sampleArgs) = Except.error "boom" ∧
    ((run (fun _ : List (String × String) =>
        (Except.error "boom" : Except String (List Event)))
        "anthropic.claude-v2" (fun _ i o => i + o) (fun _ => (0 : Nat))
        (fun _ => 1) sampleArgs).result = Except.error "boom" ∧
      (run (fun _ : List (String × String) =>
        (Except.error "boom" : Except String (List Event)))
        "anthropic.claude-v2" (fun _ i o => i + o) (fun _ => (0 : Nat))
        (fun _ => 1) sampleArgs).logs =
        [RunLog.infoArgs sampleArgs, RunLog.errorLog "boom"] ∧
      yields (run (fun _ : List (String × String) =>
        (Except.error "boom" : Except String (List Event)))
        "anthropic.claude-v2" (fun _ i o => i + o) (fun _ => (0 : Nat))
        (fun _ => 1) sampleArgs).trace = [] ∧
      streamCalls (run (fun _ : List (String × String) =>
        (Except.error "boom" : Except String (List Event)))
        "anthropic.claude-v2" (fun _ i o => i + o) (fun _ => (0 : Nat))
        (fun _ => 1) sampleArgs).trace = [] ∧
      stopCalls (run (fun _ : List (String × String) =>
        (Except.error "boom" : Except String (List Event)))
        "anthropic.claude-v2" (fun _ i o => i + o) (fun _ => (0 : Nat))
        (fun _ => 1) sampleArgs).trace = []) := by
  refine ⟨rfl, ?_⟩
  exact claim_C8_raise (fun _ => (Except.error "boom" : Except String (List Event)))
    "anthropic.claude-v2" (fun _ i o => i + o) (fun _ => (0 : Nat))
    (fun _ => 1) sampleArgs "boom" rfl

/-- Claim C9: processing a `messageStop` event records the stop reason in
the loop state and does nothing else: no element is yielded for it, neither
callback is invoked, and the accumulator is unchanged.  The state `st` is
arbitrary, so this covers a `messageStop` received at any point of a run. -/
theorem claim_C9_messageStop (model : String) (cp : String → Nat → Nat → P)
    (f : String → R) (g : OnStopInput P → R) (reason : String)
    (st : LoopState) :
    yields (processEvents model cp f g [Event.messageStop reason] st).1 = [] ∧
    streamCalls (processEvents model cp f g
      [Event.messageStop reason] st).1 = [] ∧
    stopCalls (processEvents model cp f g
      [Event.messageStop reason] st).1 = [] ∧
    (processEvents model cp f g [Event.messageStop reason] st).2 =
      ⟨st.completions, reason⟩ := by
  exact ⟨rfl, rfl, rfl, rfl⟩

/-- Claim C10: when a `metadata` event is preceded by no `messageStop`
event, `on_stop` is still invoked for it, and the `OnStopInput` built for
that `metadata` event (the one at index `countMetadata lead` among the
`on_stop` invocations) has `stop_reason` equal to `""`, the initial value. -/
theorem claim_C10_empty_stop_reason (model : String)
    (cp : String → Nat → Nat → P) (f : String → R) (g : OnStopInput P → R)
    (args : ConverseApiRequest) (lead post : List Event)
    (inTok outTok : Nat) (h : countMessageStop lead = 0) :
    ∃ s : OnStopInput P,
      (stopCalls (run (E := Unit)
          (fun _ => Except.ok (lead ++ Event.metadata inTok outTok :: post))
          model cp f g args).trace)[countMetadata lead]? = some s ∧
      s.stop_reason = "" := by
  rw [trace_run_ok,
    show lead ++ Event.metadata inTok outTok :: post =
      lead ++ [Event.metadata inTok outTok] ++ post by simp,
    processEvents_append, processEvents_append, stopCalls_append,
    stopCalls_append]
  have hlen : (stopCalls (processEvents model cp f g lead
      ⟨[], ""⟩).1).length = countMetadata lead :=
    stopCalls_length_processEvents model cp f g lead _
  have hreason : (processEvents model cp f g lead ⟨[], ""⟩).2.stop_reason =
      "" := stop_reason_processEvents model cp f g lead _ h
  refine ⟨⟨rstrip (String.join (processEvents model cp f g lead
      ⟨[], ""⟩).2.completions),
    (processEvents model cp f g lead ⟨[], ""⟩).2.stop_reason, inTok, outTok,
    cp model inTok outTok⟩, ?_, hreason⟩
  rw [List.append_assoc,
    show stopCalls (processEvents model cp f g [Event.metadata inTok outTok]
        (processEvents model cp f g lead ⟨[], ""⟩).2).1 =
      [⟨rstrip (String.join (processEvents model cp f g lead
          ⟨[], ""⟩).2.completions),
        (processEvents model cp f g lead ⟨[], ""⟩).2.stop_reason, inTok,
        outTok, cp model inTok outTok⟩] from rfl,
    List.singleton_append, ← hlen]
  exact getElem_opt_at_length _ _ _

/-- Witness for claim C10 at the concrete stream `[metadata 7 8]`. -/
theorem claim_C10_witness :
    countMessageStop ([] : List Event) = 0 ∧
    ∃ s : OnStopInput Nat,
      (stopCalls (run (E := Unit)
          (fun _ => Except.ok (([] : List Event) ++
            Event.metadata 7 8 :: ([] : List Event))) "anthropic.claude-v2"
          (fun _ i o => i + o) (fun _ => (0 : Nat)) (fun _ => 1)
          sampleArgs).trace)[countMetadata ([] : List Event)]? = some s ∧
      s.stop_reason = "" := by
  refine ⟨rfl, ?_⟩
  exact claim_C10_empty_stop_reason "anthropic.claude-v2"
    (fun _ i o => i + o) (fun _ => (0 : Nat)) (fun _ => 1) sampleArgs
    [] [] 7 8 rfl

end ConverseStream
